import Mathlib

/-!
Verification of the LiveMate text-formatting engine.

The engine lives in two modules, `formatting-actions` (pure per-style
detect / apply / remove / toggle string functions) and
`advanced-formatting` (the selection-context resolver
`detectAdvancedFormatState`), plus the toggle orchestrator
`applyFormatting` inside the `useTextFormatting` hook.

JavaScript strings are embedded as `List Char`; a document is a list of
lines (`List (List Char)`), joined by a single newline character, which
matches the CodeMirror line/offset model used by the source.  `trim`,
`startsWith`, `endsWith`, `slice` and the two regular expressions
(`^#+\s+` and `^[-*]\s+`, plus the test `^[-*]\s`) are modelled directly.
-/

namespace LiveMate

/-- The whitespace class used by JavaScript `trim` and `\s`, restricted to
the ASCII range (the source never produces non-ASCII whitespace). -/
def jsWhitespace (c : Char) : Bool :=
  c == ' ' || c == '\t' || c == '\n' || c == '\r' || c == '\x0b' || c == '\x0c'

/-- JavaScript `String.prototype.trim`: drop leading and trailing
whitespace. -/
def jsTrim (l : List Char) : List Char :=
  ((l.dropWhile jsWhitespace).reverse.dropWhile jsWhitespace).reverse

def openB : List Char := ['<', 'b', '>']
def closeB : List Char := ['<', '/', 'b', '>']
def openI : List Char := ['<', 'i', '>']
def closeI : List Char := ['<', '/', 'i', '>']
def openU : List Char := ['<', 'u', '>']
def closeU : List Char := ['<', '/', 'u', '>']
def tildes : List Char := ['~', '~']

/-- `text.slice(a, -b)` on a string of length `> a + b`: drop `a` chars at
the front and `b` at the back. -/
def jsSlice (l : List Char) (a b : Nat) : List Char :=
  (l.drop a).take (l.length - (a + b))

/-- `isBold`: trimmed text wrapped in `<b>`…`</b>` with total length > 7. -/
def isBold (text : List Char) : Bool :=
  let trimmed := jsTrim text
  openB.isPrefixOf trimmed && closeB.isSuffixOf trimmed && decide (7 < trimmed.length)

/-- `applyBold`: wrap the original text in `<b>`…`</b>`. -/
def applyBold (text : List Char) : List Char :=
  openB ++ text ++ closeB

/-- The `while` loop of `removeBold`: strip outer `<b>`…`</b>` pairs until
none remain. -/
def removeBoldLoop (result : List Char) : List Char :=
  if openB.isPrefixOf result && closeB.isSuffixOf result && decide (7 < result.length) then
    removeBoldLoop (jsSlice result 3 4)
  else
    result
termination_by result.length
decreasing_by
  simp only [jsSlice, List.length_take, List.length_drop]
  simp_all
  omega

/-- `removeBold`: trim, then strip all outer `<b>`…`</b>` pairs. -/
def removeBold (text : List Char) : List Char :=
  removeBoldLoop (jsTrim text)

/-- `toggleBold`. -/
def toggleBold (text : List Char) : List Char :=
  if isBold text then removeBold text else applyBold text

/-- `isItalic`: wrapped in `<i>`…`</i>`, but not bold-wrapped. -/
def isItalic (text : List Char) : Bool :=
  let trimmed := jsTrim text
  if openB.isPrefixOf trimmed || closeB.isSuffixOf trimmed then
    false
  else
    openI.isPrefixOf trimmed && closeI.isSuffixOf trimmed && decide (7 < trimmed.length)

/-- `applyItalic`. -/
def applyItalic (text : List Char) : List Char :=
  openI ++ text ++ closeI

/-- The `while` loop of `removeItalic`, including its defensive `break`
when the current value carries bold markers. -/
def removeItalicLoop (result : List Char) : List Char :=
  if openI.isPrefixOf result && closeI.isSuffixOf result && decide (7 < result.length) then
    if openB.isPrefixOf result || closeB.isSuffixOf result then
      result
    else
      removeItalicLoop (jsSlice result 3 4)
  else
    result
termination_by result.length
decreasing_by
  simp only [jsSlice, List.length_take, List.length_drop]
  simp_all
  omega

/-- `removeItalic`. -/
def removeItalic (text : List Char) : List Char :=
  removeItalicLoop (jsTrim text)

/-- `toggleItalic`. -/
def toggleItalic (text : List Char) : List Char :=
  if isItalic text then removeItalic text else applyItalic text

/-- `isStrikethrough`: trimmed text wrapped in `~~`…`~~`, length > 4. -/
def isStrikethrough (text : List Char) : Bool :=
  let trimmed := jsTrim text
  tildes.isPrefixOf trimmed && tildes.isSuffixOf trimmed && decide (4 < trimmed.length)

/-- `applyStrikethrough`. -/
def applyStrikethrough (text : List Char) : List Char :=
  tildes ++ text ++ tildes

/-- `removeStrikethrough`: strip one `~~` layer of the trimmed text when
detected, otherwise return the original text. -/
def removeStrikethrough (text : List Char) : List Char :=
  let trimmed := jsTrim text
  if isStrikethrough trimmed then jsSlice trimmed 2 2 else text

/-- `toggleStrikethrough`. -/
def toggleStrikethrough (text : List Char) : List Char :=
  if isStrikethrough text then removeStrikethrough text else applyStrikethrough text

/-- `isUnderline`: trimmed text wrapped in `<u>`…`</u>`, length > 7. -/
def isUnderline (text : List Char) : Bool :=
  let trimmed := jsTrim text
  openU.isPrefixOf trimmed && closeU.isSuffixOf trimmed && decide (7 < trimmed.length)

/-- `applyUnderline`. -/
def applyUnderline (text : List Char) : List Char :=
  openU ++ text ++ closeU

/-- `removeUnderline`: strip one `<u>`…`</u>` layer of the trimmed text
when detected, otherwise return the original text. -/
def removeUnderline (text : List Char) : List Char :=
  let trimmed := jsTrim text
  if isUnderline trimmed then jsSlice trimmed 3 4 else text

/-- `toggleUnderline`. -/
def toggleUnderline (text : List Char) : List Char :=
  if isUnderline text then removeUnderline text else applyUnderline text

/-- `getHeaderLevel`: count the leading `#` run of the trimmed text; a
valid header has a run of length 1–3 followed by a space character. -/
def getHeaderLevel (text : List Char) : Nat :=
  let trimmed := jsTrim text
  let level := (trimmed.takeWhile (· == '#')).length
  if 0 < level ∧ level ≤ 3 ∧ (match trimmed.drop level with
      | c :: _ => c == ' '
      | [] => false) = true then
    level
  else
    0

/-- `isH1`. -/
def isH1 (text : List Char) : Bool := getHeaderLevel text == 1

/-- `isH2`. -/
def isH2 (text : List Char) : Bool := getHeaderLevel text == 2

/-- `isH3`. -/
def isH3 (text : List Char) : Bool := getHeaderLevel text == 3

/-- `replace(/^#+\s+/, '')`: when the text starts with one or more `#`
followed by at least one whitespace character, drop the maximal `#` run
and the maximal whitespace run after it; otherwise leave it unchanged. -/
def stripHeaderMarks (l : List Char) : List Char :=
  let hashes := l.takeWhile (· == '#')
  let rest := l.dropWhile (· == '#')
  if 0 < hashes.length ∧ 0 < (rest.takeWhile jsWhitespace).length then
    rest.dropWhile jsWhitespace
  else
    l

/-- `applyH1`: trim, strip any existing `#+\s+` run, prepend `"# "`. -/
def applyH1 (text : List Char) : List Char :=
  ['#', ' '] ++ stripHeaderMarks (jsTrim text)

/-- `applyH2`. -/
def applyH2 (text : List Char) : List Char :=
  ['#', '#', ' '] ++ stripHeaderMarks (jsTrim text)

/-- `applyH3`. -/
def applyH3 (text : List Char) : List Char :=
  ['#', '#', '#', ' '] ++ stripHeaderMarks (jsTrim text)

/-- `removeHeader`: trim, then strip the leading `#+\s+` run. -/
def removeHeader (text : List Char) : List Char :=
  stripHeaderMarks (jsTrim text)

/-- `toggleH1`. -/
def toggleH1 (text : List Char) : List Char :=
  if isH1 text then removeHeader text else applyH1 text

/-- `toggleH2`. -/
def toggleH2 (text : List Char) : List Char :=
  if isH2 text then removeHeader text else applyH2 text

/-- `toggleH3`. -/
def toggleH3 (text : List Char) : List Char :=
  if isH3 text then removeHeader text else applyH3 text

/-- `isBulletList`: the trimmed text matches `^[-*]\s`. -/
def isBulletList (text : List Char) : Bool :=
  match jsTrim text with
  | c :: d :: _ => (c == '-' || c == '*') && jsWhitespace d
  | _ => false

/-- `replace(/^[-*]\s+/, '')`: when the text starts with `-` or `*`
followed by at least one whitespace character, drop the marker and the
maximal whitespace run; otherwise leave it unchanged. -/
def stripBulletMark (l : List Char) : List Char :=
  match l with
  | c :: rest =>
    if (c == '-' || c == '*') ∧ 0 < (rest.takeWhile jsWhitespace).length then
      rest.dropWhile jsWhitespace
    else
      l
  | [] => l

/-- `applyBulletList`: trim, strip any existing bullet marker, prepend
`"- "`. -/
def applyBulletList (text : List Char) : List Char :=
  ['-', ' '] ++ stripBulletMark (jsTrim text)

/-- `removeBulletList`. -/
def removeBulletList (text : List Char) : List Char :=
  stripBulletMark (jsTrim text)

/-- `toggleBulletList`. -/
def toggleBulletList (text : List Char) : List Char :=
  if isBulletList text then removeBulletList text else applyBulletList text

/-!
Document model.  A CodeMirror document is a sequence of lines joined by
single newline characters.  Line `n` (0-indexed here; the source uses
1-indexed `number`s, which only shifts the bookkeeping) spans offsets
`[lineStartPos doc n, lineStartPos doc n + length]`, and `doc.lineAt pos`
returns the line whose span contains `pos` (a position sitting exactly on
a line end belongs to that line; the newline separates the spans).
-/

/-- Index of the line containing document position `pos`. -/
def lineIndexAt (doc : List (List Char)) (pos : Nat) : Nat :=
  match doc with
  | [] => 0
  | l :: rest =>
    if pos ≤ l.length then 0 else lineIndexAt rest (pos - (l.length + 1)) + 1

/-- Start offset of line `n`. -/
def lineStartPos (doc : List (List Char)) : Nat → Nat
  | 0 => 0
  | n + 1 =>
    match doc with
    | [] => 0
    | l :: rest => l.length + 1 + lineStartPos rest n

/-- The whole document text: lines joined by newlines. -/
def docChars (doc : List (List Char)) : List Char :=
  match doc with
  | [] => []
  | [l] => l
  | l :: rest => l ++ '\n' :: docChars rest

/-- `state.sliceDoc(from, to)`. -/
def sliceDoc (doc : List (List Char)) (f t : Nat) : List Char :=
  ((docChars doc).drop f).take (t - f)

/-- The indices of the lines touched by the selection `[f, t]`: the loop
`for lineNum = startLine.number; lineNum <= endLine.number` of
`getSelectedLines`. -/
def selectedLineIdxs (doc : List (List Char)) (f t : Nat) : List Nat :=
  (List.range (lineIndexAt doc t + 1 - lineIndexAt doc f)).map
    (fun i => lineIndexAt doc f + i)

/-- `getSelectedLines`, returning each touched line's full text (the
source returns `Line` objects and reads their text with `sliceDoc`). -/
def getSelectedLines (doc : List (List Char)) (f t : Nat) : List (List Char) :=
  (selectedLineIdxs doc f t).map (fun i => doc.getD i [])

/-- `FormatType`: the closed enumeration of the eight styles. -/
inductive FormatType where
  | bold | italic | underline | strikethrough | h1 | h2 | h3 | bullet
deriving DecidableEq

/-- `FormatState`: one boolean per style. -/
structure FormatState where
  bold : Bool
  italic : Bool
  underline : Bool
  strikethrough : Bool
  h1 : Bool
  h2 : Bool
  h3 : Bool
  bullet : Bool
deriving DecidableEq

/-- `toggleFormat`: dispatch on the style. -/
def toggleFormat (text : List Char) (formatType : FormatType) : List Char :=
  match formatType with
  | .bold => toggleBold text
  | .italic => toggleItalic text
  | .underline => toggleUnderline text
  | .strikethrough => toggleStrikethrough text
  | .h1 => toggleH1 text
  | .h2 => toggleH2 text
  | .h3 => toggleH3 text
  | .bullet => toggleBulletList text

/-- `lines.some((line) => formatChecker(lineContent))` of
`hasInlineFormatInSelection`. -/
def hasInlineFormatInSelection (lines : List (List Char))
    (formatChecker : List Char → Bool) : Bool :=
  lines.any formatChecker

/-- `allLinesHaveHeaderLevel`: false on an empty line list, otherwise
`lines.every`. -/
def allLinesHaveHeaderLevel (lines : List (List Char))
    (headerChecker : List Char → Bool) : Bool :=
  if lines.length = 0 then false else lines.all headerChecker

/-- `detectAdvancedFormatState`: the selection-context resolver.  Inline
styles are active if ANY touched line carries them; heading levels only on
single-line selections where the line carries that level; bullet iff ALL
touched lines are bullet items. -/
def detectAdvancedFormatState (doc : List (List Char)) (f t : Nat) : FormatState :=
  let selectedLines := getSelectedLines doc f t
  if selectedLines.length = 0 then
    { bold := false, italic := false, underline := false, strikethrough := false,
      h1 := false, h2 := false, h3 := false, bullet := false }
  else
    let isSingleLine := selectedLines.length == 1
    { bold := hasInlineFormatInSelection selectedLines isBold
      italic := hasInlineFormatInSelection selectedLines isItalic
      underline := hasInlineFormatInSelection selectedLines isUnderline
      strikethrough := hasInlineFormatInSelection selectedLines isStrikethrough
      h1 := isSingleLine && allLinesHaveHeaderLevel selectedLines isH1
      h2 := isSingleLine && allLinesHaveHeaderLevel selectedLines isH2
      h3 := isSingleLine && allLinesHaveHeaderLevel selectedLines isH3
      bullet := decide (0 < selectedLines.length) && selectedLines.all isBulletList }

/-- The outcome of the toggle orchestrator `applyFormatting` in
`useTextFormatting`: either a refusal — the source logs the given warning
with `console.warn` and returns without dispatching, so the refusal is a
returned signal, not a thrown exception — or a dispatched edit: a list of
`(from, to, insert)` changes plus an optional new `(anchor, head)`
selection. -/
inductive ApplyResult where
  | refused (warning : List Char)
  | applied (changes : List (Nat × Nat × List Char))
      (newSelection : Option (Nat × Nat))
deriving DecidableEq

/-- The `console.warn` message of the caret-with-inline-format refusal. -/
def inlineWarnMsg : List Char :=
  "Inline formatting not allowed without selection".data

/-- The `console.warn` message of the multi-line-heading refusal. -/
def headerWarnMsg : List Char :=
  "Header formatting not allowed on multi-line selections".data

/-- `applyFormatting`: the toggle orchestrator of `useTextFormatting`.
With a caret (`f = t`) only headers and bullets act, on the whole current
line; inline requests are refused.  With a selection, headings are refused
on multi-line selections, bullets toggle each touched line separately, and
everything else toggles the selected substring and re-selects it. -/
def applyFormatting (doc : List (List Char)) (f t : Nat)
    (formatType : FormatType) : ApplyResult :=
  if f = t then
    let lineIdx := lineIndexAt doc f
    let lineFrom := lineStartPos doc lineIdx
    let lineContent := doc.getD lineIdx []
    if formatType ≠ .h1 ∧ formatType ≠ .h2 ∧ formatType ≠ .h3 ∧
        formatType ≠ .bullet then
      .refused inlineWarnMsg
    else
      let formattedLine :=
        if formatType = .h1 then toggleH1 lineContent
        else if formatType = .h2 then toggleH2 lineContent
        else if formatType = .h3 then toggleH3 lineContent
        else if formatType = .bullet then toggleBulletList lineContent
        else lineContent
      .applied [(lineFrom, lineFrom + lineContent.length, formattedLine)] none
  else
    let selectedLines := getSelectedLines doc f t
    let isSingleLine := selectedLines.length == 1
    if (formatType = .h1 ∨ formatType = .h2 ∨ formatType = .h3) ∧
        isSingleLine = false then
      .refused headerWarnMsg
    else if formatType = .bullet ∧ isSingleLine = false then
      .applied
        ((selectedLineIdxs doc f t).map (fun i =>
          let lineContent := doc.getD i []
          (lineStartPos doc i, lineStartPos doc i + lineContent.length,
            toggleBulletList lineContent)))
        none
    else
      let selectedText := sliceDoc doc f t
      let formattedText := toggleFormat selectedText formatType
      .applied [(f, t, formattedText)] (some (f, f + formattedText.length))

/-- Apply a list of `(from, to, insert)` changes — all given in original
document coordinates, ascending and non-overlapping, as CodeMirror's
`dispatch` expects — to a text.  `base` is the original coordinate of the
head of `text`. -/
def applyChanges (text : List Char) (base : Nat) :
    List (Nat × Nat × List Char) → List Char
  | [] => text
  | (cf, ct, ins) :: rest =>
    text.take (cf - base) ++ ins ++ applyChanges (text.drop (ct - base)) ct rest

/-- The document text after an `applyFormatting` call: unchanged when the
call refused, otherwise the dispatched changes applied. -/
def docCharsAfterFormatting (doc : List (List Char)) (f t : Nat)
    (formatType : FormatType) : List Char :=
  match applyFormatting doc f t formatType with
  | .refused _ => docChars doc
  | .applied changes _ => applyChanges (docChars doc) 0 changes

/-!
Helper lemmas about `jsTrim` and list affixes.
-/

lemma getLast?_of_suffix {l₁ l₂ : List Char} (h : l₁ <:+ l₂) (hne : l₁ ≠ []) :
    l₂.getLast? = l₁.getLast? := by
  obtain ⟨u, hu⟩ := h
  rw [← hu, List.getLast?_append_of_ne_nil u hne]

lemma head?_dropWhile_false {p : Char → Bool} {l : List Char} {c : Char}
    (h : (l.dropWhile p).head? = some c) : p c = false := by
  have := List.head?_dropWhile_not p l
  rw [h] at this
  exact this

lemma jsTrim_head?_false {l : List Char} {c : Char}
    (h : (jsTrim l).head? = some c) : jsWhitespace c = false := by
  unfold jsTrim at h
  rw [List.head?_reverse] at h
  have hne : (l.dropWhile jsWhitespace).reverse.dropWhile jsWhitespace ≠ [] := by
    intro hnil
    rw [hnil] at h
    simp at h
  rw [← getLast?_of_suffix (List.dropWhile_suffix jsWhitespace) hne] at h
  rw [List.getLast?_reverse] at h
  exact head?_dropWhile_false h

lemma jsTrim_getLast?_false {l : List Char} {c : Char}
    (h : (jsTrim l).getLast? = some c) : jsWhitespace c = false := by
  unfold jsTrim at h
  rw [List.getLast?_reverse] at h
  exact head?_dropWhile_false h

lemma jsTrim_eq_self {l : List Char}
    (h1 : ∀ c ∈ l.head?, jsWhitespace c = false)
    (h2 : ∀ c ∈ l.getLast?, jsWhitespace c = false) :
    jsTrim l = l := by
  have step1 : l.dropWhile jsWhitespace = l := by
    cases l with
    | nil => rfl
    | cons c r =>
      rw [List.dropWhile_cons, if_neg]
      simp only [List.head?] at h1
      simp [h1 c rfl]
  have step2 : l.reverse.dropWhile jsWhitespace = l.reverse := by
    cases hrev : l.reverse with
    | nil => rfl
    | cons c r =>
      rw [List.dropWhile_cons, if_neg]
      have : l.getLast? = some c := by
        rw [← List.head?_reverse, hrev]; rfl
      simp [h2 c this]
  unfold jsTrim
  rw [step1, step2, List.reverse_reverse]

lemma jsTrim_idem (l : List Char) : jsTrim (jsTrim l) = jsTrim l := by
  apply jsTrim_eq_self
  · intro c hc
    cases h : (jsTrim l).head? with
    | none => rw [h] at hc; simp at hc
    | some d => rw [h] at hc; simp at hc; subst hc; exact jsTrim_head?_false h
  · intro c hc
    cases h : (jsTrim l).getLast? with
    | none => rw [h] at hc; simp at hc
    | some d => rw [h] at hc; simp at hc; subst hc; exact jsTrim_getLast?_false h

/-- A string with a known marker prefix and a known marker suffix whose
lengths fit is exactly the prefix, the middle slice, and the suffix. -/
lemma eq_wrap_of_affixes {s a b : List Char}
    (ha : a.isPrefixOf s = true) (hb : b.isSuffixOf s = true)
    (hl : a.length + b.length ≤ s.length) :
    s = a ++ ((s.drop a.length).take (s.length - (a.length + b.length))) ++ b := by
  obtain ⟨u, hu⟩ := List.isPrefixOf_iff_prefix.mp ha
  obtain ⟨v, hv⟩ := List.isSuffixOf_iff_suffix.mp hb
  have hlen : a.length ≤ v.length := by
    have := congrArg List.length hv
    simp at this
    omega
  have hmix : a ++ u = v ++ b := by rw [hu, hv]
  rcases List.append_eq_append_iff.mp hmix with ⟨w, hw1, hw2⟩ | ⟨w, hw1, hw2⟩
  · subst hw1 hw2
    have hs : s = a ++ (w ++ b) := by rw [← hu]
    subst hs
    rw [List.drop_left]
    have hlens : (a ++ (w ++ b)).length - (a.length + b.length) = w.length := by
      simp
      omega
    rw [hlens, List.take_left, ← List.append_assoc]
  · have hw : w = [] := by
      have := congrArg List.length hw1
      simp at this
      have : w.length = 0 := by omega
      simpa using this
    subst hw
    simp at hw1 hw2
    subst hw1 hw2
    have hs : s = a ++ b := by rw [← hu]
    subst hs
    rw [List.drop_left]
    have hlens : (a ++ b).length - (a.length + b.length) = 0 := by simp
    rw [hlens, List.take_zero, List.append_nil]

/-- The strip loop of `removeBold` always runs to exhaustion: its result
never still starts with `<b>` and ends with `</b>` at length > 7. -/
lemma removeBoldLoop_guard_false (r : List Char) :
    (openB.isPrefixOf (removeBoldLoop r) && closeB.isSuffixOf (removeBoldLoop r) &&
      decide (7 < (removeBoldLoop r).length)) = false := by
  induction r using removeBoldLoop.induct with
  | case1 r hg ih =>
    rw [removeBoldLoop, if_pos hg]
    exact ih
  | case2 r hg =>
    rw [removeBoldLoop, if_neg hg]
    simpa using hg

unseal removeBoldLoop in
/-- C6: `removeBold` strips all nested `<b>`…`</b>` layers repeatedly
until the content no longer starts and ends with the pair (at length > 7):
the result never satisfies the strip condition again,
`removeBold "<b><b>x</b></b>" = "x"`, and
`toggleBold (toggleBold "<b>x</b>") = "<b>x</b>"`. -/
theorem c6_removeBold_strips_all_layers :
    (∀ text : List Char,
      (openB.isPrefixOf (removeBold text) && closeB.isSuffixOf (removeBold text) &&
        decide (7 < (removeBold text).length)) = false) ∧
    removeBold "<b><b>x</b></b>".data = "x".data ∧
    toggleBold (toggleBold "<b>x</b>".data) = "<b>x</b>".data := by
  refine ⟨fun text => removeBoldLoop_guard_false (jsTrim text), by decide, by decide⟩

/-- C7: the heading levels are mutually exclusive — for every string at
most one of `isH1`, `isH2`, `isH3` holds. -/
theorem c7_heading_levels_mutually_exclusive (s : List Char) :
    (isH1 s && isH2 s) = false ∧ (isH1 s && isH3 s) = false ∧
    (isH2 s && isH3 s) = false := by
  refine ⟨?_, ?_, ?_⟩ <;> simp [isH1, isH2, isH3] <;> omega

/-- C8: applying a heading level first strips any existing leading run of
`#` plus whitespace (exactly what `removeHeader` strips) and then prepends
the level's markers and a space; in particular
`applyH2 (applyH1 "text") = "## text"` and toggling h1 on
`"## Already H2"` yields `"# Already H2"`. -/
theorem c8_heading_apply_normalizes :
    (∀ s : List Char, applyH1 s = "# ".data ++ removeHeader s ∧
      applyH2 s = "## ".data ++ removeHeader s ∧
      applyH3 s = "### ".data ++ removeHeader s) ∧
    applyH2 (applyH1 "text".data) = "## text".data ∧
    toggleH1 "## Already H2".data = "# Already H2".data := by
  refine ⟨fun s => ⟨rfl, rfl, rfl⟩, by decide, by decide⟩

lemma mem_of_getLast?_eq {l : List Char} {c : Char} (h : l.getLast? = some c) : c ∈ l := by
  cases l with
  | nil => simp at h
  | cons x r =>
    rw [List.getLast?_eq_getLast_of_ne_nil (by simp)] at h
    simp only [Option.some.injEq] at h
    rw [← h]
    exact List.getLast_mem _

lemma dropWhile_ws_ne_nil {l : List Char} (hne : l ≠ [])
    (hlast : ∀ c ∈ l.getLast?, jsWhitespace c = false) :
    l.dropWhile jsWhitespace ≠ [] := by
  intro hnil
  have hsplit : l.takeWhile jsWhitespace ++ l.dropWhile jsWhitespace = l :=
    List.takeWhile_append_dropWhile jsWhitespace l
  rw [hnil, List.append_nil] at hsplit
  obtain ⟨c, hc⟩ : ∃ c, l.getLast? = some c := by
    cases l with
    | nil => exact absurd rfl hne
    | cons x r => exact ⟨_, List.getLast?_eq_getLast_of_ne_nil (by simp)⟩
  have hmem : c ∈ l := mem_of_getLast?_eq hc
  rw [← hsplit] at hmem
  have := List.mem_takeWhile_imp hmem
  rw [hlast c hc] at this
  exact Bool.false_ne_true this

/-- If `rest` is a nonempty suffix of `T` whose last character is not
whitespace, then `rest.dropWhile jsWhitespace` is nonempty and also ends
in `T`'s non-whitespace last character. -/
lemma dropWhile_ws_of_suffix {T rest : List Char}
    (hlast : ∀ c ∈ T.getLast?, jsWhitespace c = false)
    (hsuf : rest <:+ T) (hrne : rest ≠ []) :
    rest.dropWhile jsWhitespace ≠ [] ∧
    ∀ c ∈ (rest.dropWhile jsWhitespace).getLast?, jsWhitespace c = false := by
  have hrlast : rest.getLast? = T.getLast? := (getLast?_of_suffix hsuf hrne).symm
  have hrlast2 : ∀ c ∈ rest.getLast?, jsWhitespace c = false := by
    intro c hc
    rw [hrlast] at hc
    exact hlast c hc
  have hne2 := dropWhile_ws_ne_nil hrne hrlast2
  refine ⟨hne2, ?_⟩
  intro c hc
  rw [getLast?_of_suffix (List.dropWhile_suffix jsWhitespace) hne2] at hrlast
  rw [hrlast] at hc
  exact hlast c hc

/-- The strip loop of `removeItalic` also runs to exhaustion: its
defensive `break` on bold markers is unreachable (a string cannot start
with both `<i>` and `<b>`, nor end with both `</i>` and `</b>`), so the
result never satisfies the italic strip condition. -/
lemma removeItalicLoop_guard_false (r : List Char) :
    (openI.isPrefixOf (removeItalicLoop r) && closeI.isSuffixOf (removeItalicLoop r) &&
      decide (7 < (removeItalicLoop r).length)) = false := by
  induction r using removeItalicLoop.induct with
  | case1 r hg hbreak =>
    exfalso
    simp only [Bool.and_eq_true, decide_eq_true_eq] at hg
    obtain ⟨⟨hpre, hsuf⟩, hlen⟩ := hg
    rcases Bool.or_eq_true .. |>.mp hbreak with hb | hb
    · obtain ⟨u, hu⟩ := List.isPrefixOf_iff_prefix.mp hpre
      obtain ⟨v, hv⟩ := List.isPrefixOf_iff_prefix.mp hb
      have := (List.append_inj (hu.trans hv.symm) (by decide)).1
      exact absurd this (by decide)
    · obtain ⟨u, hu⟩ := List.isSuffixOf_iff_suffix.mp hsuf
      obtain ⟨v, hv⟩ := List.isSuffixOf_iff_suffix.mp hb
      have hlen2 : u.length = v.length := by
        have := congrArg List.length (hu.trans hv.symm)
        simp [openI, closeI, openB, closeB] at this
        omega
      have := List.append_inj_right (hu.trans hv.symm) hlen2
      exact absurd this (by decide)
  | case2 r hg hbreak ih =>
    rw [removeItalicLoop, if_pos hg, if_neg (by simp [hbreak])]
    exact ih
  | case3 r hg =>
    rw [removeItalicLoop, if_neg hg]
    simpa using hg

/-- The `#+\s+` stripper of a trimmed string produces a trimmed string. -/
lemma jsTrim_stripHeaderMarks (s : List Char) :
    jsTrim (stripHeaderMarks (jsTrim s)) = stripHeaderMarks (jsTrim s) := by
  unfold stripHeaderMarks
  by_cases hc : 0 < ((jsTrim s).takeWhile (· == '#')).length ∧
      0 < (((jsTrim s).dropWhile (· == '#')).takeWhile jsWhitespace).length
  · rw [if_pos hc]
    have hrne : (jsTrim s).dropWhile (· == '#') ≠ [] := by
      intro hnil
      rw [hnil] at hc
      simp at hc
    apply jsTrim_eq_self
    · intro c hc2
      exact head?_dropWhile_false hc2
    · exact (dropWhile_ws_of_suffix (fun c hc2 => jsTrim_getLast?_false hc2)
        (List.dropWhile_suffix _) hrne).2
  · rw [if_neg hc]
    exact jsTrim_idem s

/-- The `[-*]\s+` stripper of a trimmed string produces a trimmed
string. -/
lemma jsTrim_stripBulletMark (s : List Char) :
    jsTrim (stripBulletMark (jsTrim s)) = stripBulletMark (jsTrim s) := by
  cases hT : jsTrim s with
  | nil =>
    simp only [stripBulletMark]
    rfl
  | cons c rest =>
    have hlast : ∀ d ∈ (c :: rest).getLast?, jsWhitespace d = false := by
      intro d hd
      rw [← hT] at hd
      exact jsTrim_getLast?_false hd
    simp only [stripBulletMark]
    by_cases hcond : (c == '-' || c == '*') = true ∧ 0 < (rest.takeWhile jsWhitespace).length
    · rw [if_pos hcond]
      apply jsTrim_eq_self
      · intro d hd
        exact head?_dropWhile_false hd
      · have hrne : rest ≠ [] := by
          intro hnil
          rw [hnil] at hcond
          simp at hcond
        exact (dropWhile_ws_of_suffix hlast ⟨[c], rfl⟩ hrne).2
    · rw [if_neg hcond]
      rw [← hT]
      exact jsTrim_idem s

unseal removeBoldLoop in
/-- C4 counterexample: `remove(remove(s)) == remove(s)` fails for bold at
`s = "<b> x </b>"`: the first `removeBold` strips the tags and returns
`" x "`, the second additionally trims it to `"x"`. -/
theorem c4_counterexample_remove_not_idempotent :
    (removeBold (removeBold "<b> x </b>".data) == removeBold "<b> x </b>".data) = false := by
  decide

/-- C4 (amended): `remove` is idempotent on every input whose removal
result cannot be processed further — for bold and italic, whenever the
removal result equals its own trim (the strip loops provably run to
exhaustion, so only re-trimming can change it); for underline and
strikethrough, whenever the style no longer detects the removal result;
for heading and bullet (h1, h2 and h3 share `removeHeader`), whenever the
strip pattern no longer matches the removal result (which is always
already trimmed); in particular heading remove is idempotent on input
whose trimmed form does not match `#+\s+`.  This covers e.g. `removeBold`
at `"<b>x</b>"` and `removeHeader` at `"# x"`; unrestricted idempotence
fails, see the counterexample. -/
theorem c4_remove_idempotent_amended (s : List Char) :
    (jsTrim (removeBold s) = removeBold s →
      removeBold (removeBold s) = removeBold s) ∧
    (jsTrim (removeItalic s) = removeItalic s →
      removeItalic (removeItalic s) = removeItalic s) ∧
    (isUnderline (removeUnderline s) = false →
      removeUnderline (removeUnderline s) = removeUnderline s) ∧
    (isStrikethrough (removeStrikethrough s) = false →
      removeStrikethrough (removeStrikethrough s) = removeStrikethrough s) ∧
    (stripHeaderMarks (removeHeader s) = removeHeader s →
      removeHeader (removeHeader s) = removeHeader s) ∧
    (stripBulletMark (removeBulletList s) = removeBulletList s →
      removeBulletList (removeBulletList s) = removeBulletList s) ∧
    (¬ (0 < ((jsTrim s).takeWhile (· == '#')).length ∧
        0 < (((jsTrim s).dropWhile (· == '#')).takeWhile jsWhitespace).length) →
      removeHeader (removeHeader s) = removeHeader s) := by
  have hheader : stripHeaderMarks (removeHeader s) = removeHeader s →
      removeHeader (removeHeader s) = removeHeader s := by
    intro hns
    conv_lhs => rw [removeHeader]
    calc stripHeaderMarks (jsTrim (removeHeader s))
        = stripHeaderMarks (removeHeader s) := by
          rw [show jsTrim (removeHeader s) = removeHeader s from jsTrim_stripHeaderMarks s]
      _ = removeHeader s := hns
  refine ⟨?_, ?_, ?_, ?_, hheader, ?_, ?_⟩
  · intro h
    unfold removeBold at h ⊢
    rw [h]
    have hg := removeBoldLoop_guard_false (jsTrim s)
    rw [removeBoldLoop, hg]
    simp
  · intro h
    unfold removeItalic at h ⊢
    rw [h]
    have hg := removeItalicLoop_guard_false (jsTrim s)
    rw [removeItalicLoop, hg]
    simp
  · intro hnd
    have hiff : isUnderline (jsTrim (removeUnderline s)) =
        isUnderline (removeUnderline s) := by
      unfold isUnderline
      rw [jsTrim_idem]
    conv_lhs => rw [removeUnderline]
    rw [if_neg (by rw [hiff, hnd]; exact Bool.false_ne_true)]
  · intro hnd
    have hiff : isStrikethrough (jsTrim (removeStrikethrough s)) =
        isStrikethrough (removeStrikethrough s) := by
      unfold isStrikethrough
      rw [jsTrim_idem]
    conv_lhs => rw [removeStrikethrough]
    rw [if_neg (by rw [hiff, hnd]; exact Bool.false_ne_true)]
  · intro hns
    conv_lhs => rw [removeBulletList]
    calc stripBulletMark (jsTrim (removeBulletList s))
        = stripBulletMark (removeBulletList s) := by
          rw [show jsTrim (removeBulletList s) = removeBulletList s from jsTrim_stripBulletMark s]
      _ = removeBulletList s := hns
  · intro hc
    apply hheader
    have h1 : removeHeader s = jsTrim s := by
      unfold removeHeader stripHeaderMarks
      rw [if_neg hc]
    rw [h1]
    unfold removeHeader at h1
    exact h1

unseal removeBoldLoop removeItalicLoop in
/-- C4 witness: the amended idempotence at concrete inputs where remove
genuinely strips — `"<b>x</b>"`, `"<i>x</i>"`, `"<u>x</u>"`, `"~~x~~"`,
`"# x"`, `"- x"` — plus the non-header-prefixed input `"x"`. -/
theorem c4_remove_idempotent_amended_witness :
    removeBold (removeBold "<b>x</b>".data) = removeBold "<b>x</b>".data ∧
    removeItalic (removeItalic "<i>x</i>".data) = removeItalic "<i>x</i>".data ∧
    removeUnderline (removeUnderline "<u>x</u>".data) = removeUnderline "<u>x</u>".data ∧
    removeStrikethrough (removeStrikethrough "~~x~~".data) =
      removeStrikethrough "~~x~~".data ∧
    removeHeader (removeHeader "# x".data) = removeHeader "# x".data ∧
    removeBulletList (removeBulletList "- x".data) = removeBulletList "- x".data ∧
    removeHeader (removeHeader "x".data) = removeHeader "x".data :=
  ⟨(c4_remove_idempotent_amended "<b>x</b>".data).1 (by decide),
   (c4_remove_idempotent_amended "<i>x</i>".data).2.1 (by decide),
   (c4_remove_idempotent_amended "<u>x</u>".data).2.2.1 (by decide),
   (c4_remove_idempotent_amended "~~x~~".data).2.2.2.1 (by decide),
   (c4_remove_idempotent_amended "# x".data).2.2.2.2.1 (by decide),
   (c4_remove_idempotent_amended "- x".data).2.2.2.2.2.1 (by decide),
   (c4_remove_idempotent_amended "x".data).2.2.2.2.2.2 (by decide)⟩

/-!
Lemmas about wrapping a text in non-whitespace markers, used for the
toggle involution and detect-after-apply claims.
-/

lemma jsTrim_wrapped {a b : List Char} (s : List Char) {ca cb : Char}
    (ha : a.head? = some ca) (hca : jsWhitespace ca = false)
    (hb : b.getLast? = some cb) (hcb : jsWhitespace cb = false) (hbne : b ≠ []) :
    jsTrim (a ++ s ++ b) = a ++ s ++ b := by
  apply jsTrim_eq_self
  · intro c hc
    cases a with
    | nil => simp at ha
    | cons x a' =>
      simp only [List.head?_cons, Option.some.injEq] at ha
      subst ha
      simp only [List.cons_append, List.head?_cons, Option.mem_def, Option.some.injEq] at hc
      subst hc
      exact hca
  · intro c hc
    have h1 : s ++ b ≠ [] := fun h => hbne (List.append_eq_nil.mp h).2
    rw [List.append_assoc, List.getLast?_append_of_ne_nil _ h1,
        List.getLast?_append_of_ne_nil _ hbne, hb] at hc
    simp only [Option.mem_def, Option.some.injEq] at hc
    subst hc
    exact hcb

lemma isUnderline_applyUnderline {s : List Char} (hne : s ≠ []) :
    isUnderline (applyUnderline s) = true := by
  have htrim : jsTrim (applyUnderline s) = openU ++ s ++ closeU :=
    jsTrim_wrapped s (by rfl) (by decide) (by rfl) (by decide) (by decide)
  simp only [isUnderline, applyUnderline] at htrim ⊢
  simp only [htrim]
  have hpre : openU.isPrefixOf (openU ++ s ++ closeU) = true := by
    rw [List.isPrefixOf_iff_prefix, List.append_assoc]
    exact ⟨s ++ closeU, rfl⟩
  have hsuf : closeU.isSuffixOf (openU ++ s ++ closeU) = true := by
    rw [List.isSuffixOf_iff_suffix]
    exact ⟨openU ++ s, by simp⟩
  rw [hpre, hsuf]
  have : s.length ≠ 0 := fun h0 => hne (List.length_eq_zero.mp h0)
  simp only [Bool.true_and, decide_eq_true_eq, List.length_append]
  simp [openU, closeU]
  omega

lemma jsSlice_wrapU (s : List Char) : jsSlice (openU ++ s ++ closeU) 3 4 = s := by
  unfold jsSlice
  rw [List.append_assoc]
  rw [show (openU ++ (s ++ closeU)).drop 3 = s ++ closeU by
    rw [show (3 : Nat) = openU.length by decide, List.drop_left]]
  have hlen : (openU ++ (s ++ closeU)).length - (3 + 4) = s.length := by
    simp [openU, closeU]
  rw [hlen, List.take_left]

lemma removeUnderline_applyUnderline {s : List Char} (hne : s ≠ []) :
    removeUnderline (applyUnderline s) = s := by
  have htrim : jsTrim (applyUnderline s) = openU ++ s ++ closeU :=
    jsTrim_wrapped s (by rfl) (by decide) (by rfl) (by decide) (by decide)
  simp only [removeUnderline]
  rw [htrim]
  rw [if_pos (by
    have := isUnderline_applyUnderline hne
    simpa [isUnderline, applyUnderline, htrim] using this)]
  exact jsSlice_wrapU s

lemma isStrikethrough_applyStrikethrough {s : List Char} (hne : s ≠ []) :
    isStrikethrough (applyStrikethrough s) = true := by
  have htrim : jsTrim (applyStrikethrough s) = tildes ++ s ++ tildes :=
    jsTrim_wrapped s (by rfl) (by decide) (by rfl) (by decide) (by decide)
  simp only [isStrikethrough, applyStrikethrough] at htrim ⊢
  simp only [htrim]
  have hpre : tildes.isPrefixOf (tildes ++ s ++ tildes) = true := by
    rw [List.isPrefixOf_iff_prefix, List.append_assoc]
    exact ⟨s ++ tildes, rfl⟩
  have hsuf : tildes.isSuffixOf (tildes ++ s ++ tildes) = true := by
    rw [List.isSuffixOf_iff_suffix]
    exact ⟨tildes ++ s, by simp⟩
  rw [hpre, hsuf]
  have : s.length ≠ 0 := fun h0 => hne (List.length_eq_zero.mp h0)
  simp only [Bool.true_and, decide_eq_true_eq, List.length_append]
  simp [tildes]
  omega

lemma jsSlice_wrapS (s : List Char) : jsSlice (tildes ++ s ++ tildes) 2 2 = s := by
  unfold jsSlice
  rw [List.append_assoc]
  rw [show (tildes ++ (s ++ tildes)).drop 2 = s ++ tildes by
    rw [show (2 : Nat) = tildes.length from rfl, List.drop_left]]
  have hlen : (tildes ++ (s ++ tildes)).length - (2 + 2) = s.length := by
    simp [tildes]
  rw [hlen, List.take_left]

lemma removeStrikethrough_applyStrikethrough {s : List Char} (hne : s ≠ []) :
    removeStrikethrough (applyStrikethrough s) = s := by
  have htrim : jsTrim (applyStrikethrough s) = tildes ++ s ++ tildes :=
    jsTrim_wrapped s (by rfl) (by decide) (by rfl) (by decide) (by decide)
  simp only [removeStrikethrough]
  rw [htrim]
  rw [if_pos (by
    have := isStrikethrough_applyStrikethrough hne
    simpa [isStrikethrough, applyStrikethrough, htrim] using this)]
  exact jsSlice_wrapS s

/-- C5 counterexample: the toggle involution fails for both single-layer
styles at the empty string: `toggleUnderline (toggleUnderline "")` is
`"<u><u></u></u>"` (the first wrap is too short for the detector, so the
second toggle wraps again), and likewise for strikethrough. -/
theorem c5_counterexample_toggle_not_involutive :
    (toggleUnderline (toggleUnderline "".data) == "".data) = false ∧
    (toggleStrikethrough (toggleStrikethrough "".data) == "".data) = false := by
  exact ⟨by decide, by decide⟩

/-- C5 (amended): for underline and strikethrough, `toggle (toggle s) = s`
holds for every `s` that is either undetected and nonempty, or detected,
already trimmed, and with an undetected removal result (i.e. a single
marker layer).  The unrestricted involution fails, see the
counterexample. -/
theorem c5_toggle_involution_amended (s : List Char) :
    (isUnderline s = false → s ≠ [] → toggleUnderline (toggleUnderline s) = s) ∧
    (isUnderline s = true → jsTrim s = s → isUnderline (removeUnderline s) = false →
      toggleUnderline (toggleUnderline s) = s) ∧
    (isStrikethrough s = false → s ≠ [] →
      toggleStrikethrough (toggleStrikethrough s) = s) ∧
    (isStrikethrough s = true → jsTrim s = s →
      isStrikethrough (removeStrikethrough s) = false →
      toggleStrikethrough (toggleStrikethrough s) = s) := by
  refine ⟨?_, ?_, ?_, ?_⟩
  · intro hd hne
    have ht1 : toggleUnderline s = applyUnderline s := by
      unfold toggleUnderline
      rw [if_neg (by simp [hd])]
    rw [ht1]
    unfold toggleUnderline
    rw [if_pos (isUnderline_applyUnderline hne)]
    exact removeUnderline_applyUnderline hne
  · intro hd htr hnd
    have hrem : removeUnderline s = jsSlice s 3 4 := by
      simp only [removeUnderline, htr]
      rw [if_pos hd]
    have ht1 : toggleUnderline s = jsSlice s 3 4 := by
      unfold toggleUnderline
      rw [if_pos hd, hrem]
    rw [ht1]
    unfold toggleUnderline
    rw [if_neg (by rw [← hrem]; simp [hnd])]
    simp only [isUnderline, htr, Bool.and_eq_true, decide_eq_true_eq] at hd
    obtain ⟨⟨hpre, hsuf⟩, hlen⟩ := hd
    have hw := eq_wrap_of_affixes hpre hsuf
      (by rw [show openU.length = 3 from rfl, show closeU.length = 4 from rfl]; omega)
    rw [show openU.length = 3 from rfl, show closeU.length = 4 from rfl] at hw
    unfold applyUnderline jsSlice
    exact hw.symm
  · intro hd hne
    have ht1 : toggleStrikethrough s = applyStrikethrough s := by
      unfold toggleStrikethrough
      rw [if_neg (by simp [hd])]
    rw [ht1]
    unfold toggleStrikethrough
    rw [if_pos (isStrikethrough_applyStrikethrough hne)]
    exact removeStrikethrough_applyStrikethrough hne
  · intro hd htr hnd
    have hrem : removeStrikethrough s = jsSlice s 2 2 := by
      simp only [removeStrikethrough, htr]
      rw [if_pos hd]
    have ht1 : toggleStrikethrough s = jsSlice s 2 2 := by
      unfold toggleStrikethrough
      rw [if_pos hd, hrem]
    rw [ht1]
    unfold toggleStrikethrough
    rw [if_neg (by rw [← hrem]; simp [hnd])]
    simp only [isStrikethrough, htr, Bool.and_eq_true, decide_eq_true_eq] at hd
    obtain ⟨⟨hpre, hsuf⟩, hlen⟩ := hd
    have hw := eq_wrap_of_affixes hpre hsuf
      (by rw [show tildes.length = 2 from rfl]; omega)
    rw [show tildes.length = 2 from rfl] at hw
    unfold applyStrikethrough jsSlice
    exact hw.symm

/-- C5 witness: the amended involution at concrete inputs — the undetected
case at `"x"` and the detected single-layer case at `"<u>x</u>"` and
`"~~x~~"`. -/
theorem c5_toggle_involution_amended_witness :
    toggleUnderline (toggleUnderline "x".data) = "x".data ∧
    toggleUnderline (toggleUnderline "<u>x</u>".data) = "<u>x</u>".data ∧
    toggleStrikethrough (toggleStrikethrough "x".data) = "x".data ∧
    toggleStrikethrough (toggleStrikethrough "~~x~~".data) = "~~x~~".data :=
  ⟨(c5_toggle_involution_amended "x".data).1 (by decide) (by decide),
   (c5_toggle_involution_amended "<u>x</u>".data).2.1 (by decide) (by decide) (by decide),
   (c5_toggle_involution_amended "x".data).2.2.1 (by decide) (by decide),
   (c5_toggle_involution_amended "~~x~~".data).2.2.2 (by decide) (by decide) (by decide)⟩

/-!
Lemmas about the result of the `#`-run and bullet-marker strippers on
trimmed input, used for the detect-after-apply claim.
-/

/-- `stripHeaderMarks` of a trimmed, nonempty string is nonempty and ends
in the same non-whitespace character. -/
lemma stripHeaderMarks_clean {s : List Char} (h : jsTrim s ≠ []) :
    stripHeaderMarks (jsTrim s) ≠ [] ∧
    ∀ c ∈ (stripHeaderMarks (jsTrim s)).getLast?, jsWhitespace c = false := by
  have hlast : ∀ c ∈ (jsTrim s).getLast?, jsWhitespace c = false := by
    intro c hc
    exact jsTrim_getLast?_false hc
  unfold stripHeaderMarks
  by_cases hc : 0 < ((jsTrim s).takeWhile (· == '#')).length ∧
      0 < (((jsTrim s).dropWhile (· == '#')).takeWhile jsWhitespace).length
  · rw [if_pos hc]
    have hrne : (jsTrim s).dropWhile (· == '#') ≠ [] := by
      intro hnil
      rw [hnil] at hc
      simp at hc
    exact dropWhile_ws_of_suffix hlast (List.dropWhile_suffix _) hrne
  · rw [if_neg hc]
    exact ⟨h, hlast⟩

/-- `stripBulletMark` of a trimmed, nonempty string is nonempty and ends
in the same non-whitespace character. -/
lemma stripBulletMark_clean {s : List Char} (h : jsTrim s ≠ []) :
    stripBulletMark (jsTrim s) ≠ [] ∧
    ∀ c ∈ (stripBulletMark (jsTrim s)).getLast?, jsWhitespace c = false := by
  have hlast : ∀ c ∈ (jsTrim s).getLast?, jsWhitespace c = false := by
    intro c hc
    exact jsTrim_getLast?_false hc
  cases hT : jsTrim s with
  | nil => exact absurd hT h
  | cons c rest =>
    rw [hT] at hlast
    simp only [stripBulletMark]
    by_cases hcond : (c == '-' || c == '*') = true ∧ 0 < (rest.takeWhile jsWhitespace).length
    · rw [if_pos hcond]
      have hrne : rest ≠ [] := by
        intro hnil
        rw [hnil] at hcond
        simp at hcond
      exact dropWhile_ws_of_suffix hlast ⟨[c], rfl⟩ hrne
    · rw [if_neg hcond]
      exact ⟨by simp, hlast⟩

/-- A non-whitespace marker block prepended to a nonempty text with a
non-whitespace last character is already trimmed. -/
lemma jsTrim_marker_cons {m : List Char} (cleaned : List Char)
    (hm : ∀ c ∈ m.head?, jsWhitespace c = false)
    (hne : cleaned ≠ [])
    (hlast : ∀ c ∈ cleaned.getLast?, jsWhitespace c = false)
    (hmne : m ≠ []) :
    jsTrim (m ++ cleaned) = m ++ cleaned := by
  apply jsTrim_eq_self
  · intro c hc
    cases m with
    | nil => exact absurd rfl hmne
    | cons x r =>
      simp only [List.cons_append, List.head?_cons, Option.mem_def, Option.some.injEq] at hc
      subst hc
      exact hm x rfl
  · intro c hc
    rw [List.getLast?_append_of_ne_nil _ hne] at hc
    exact hlast c hc

lemma isH1_applyH1 {s : List Char} (h : jsTrim s ≠ []) : isH1 (applyH1 s) = true := by
  obtain ⟨hne, hlast⟩ := stripHeaderMarks_clean h
  have htrim : jsTrim (applyH1 s) = applyH1 s := by
    unfold applyH1
    exact jsTrim_marker_cons _ (by intro c hc; simp at hc; subst hc; decide) hne hlast (by decide)
  unfold isH1 getHeaderLevel
  rw [htrim]
  unfold applyH1
  simp [List.takeWhile_cons]

lemma isH2_applyH2 {s : List Char} (h : jsTrim s ≠ []) : isH2 (applyH2 s) = true := by
  obtain ⟨hne, hlast⟩ := stripHeaderMarks_clean h
  have htrim : jsTrim (applyH2 s) = applyH2 s := by
    unfold applyH2
    exact jsTrim_marker_cons _ (by intro c hc; simp at hc; subst hc; decide) hne hlast (by decide)
  unfold isH2 getHeaderLevel
  rw [htrim]
  unfold applyH2
  simp [List.takeWhile_cons]

lemma isH3_applyH3 {s : List Char} (h : jsTrim s ≠ []) : isH3 (applyH3 s) = true := by
  obtain ⟨hne, hlast⟩ := stripHeaderMarks_clean h
  have htrim : jsTrim (applyH3 s) = applyH3 s := by
    unfold applyH3
    exact jsTrim_marker_cons _ (by intro c hc; simp at hc; subst hc; decide) hne hlast (by decide)
  unfold isH3 getHeaderLevel
  rw [htrim]
  unfold applyH3
  simp [List.takeWhile_cons]

lemma isBulletList_applyBulletList {s : List Char} (h : jsTrim s ≠ []) :
    isBulletList (applyBulletList s) = true := by
  obtain ⟨hne, hlast⟩ := stripBulletMark_clean h
  have htrim : jsTrim (applyBulletList s) = applyBulletList s := by
    unfold applyBulletList
    exact jsTrim_marker_cons _ (by intro c hc; simp at hc; subst hc; decide) hne hlast (by decide)
  unfold isBulletList
  rw [htrim]
  rfl

lemma isBold_applyBold {s : List Char} (hne : s ≠ []) : isBold (applyBold s) = true := by
  have htrim : jsTrim (applyBold s) = openB ++ s ++ closeB :=
    jsTrim_wrapped s (by rfl) (by decide) (by rfl) (by decide) (by decide)
  simp only [isBold, applyBold] at htrim ⊢
  simp only [htrim]
  have hpre : openB.isPrefixOf (openB ++ s ++ closeB) = true := by
    rw [List.isPrefixOf_iff_prefix, List.append_assoc]
    exact ⟨s ++ closeB, rfl⟩
  have hsuf : closeB.isSuffixOf (openB ++ s ++ closeB) = true := by
    rw [List.isSuffixOf_iff_suffix]
    exact ⟨openB ++ s, by simp⟩
  rw [hpre, hsuf]
  have : s.length ≠ 0 := fun h0 => hne (List.length_eq_zero.mp h0)
  simp only [Bool.true_and, decide_eq_true_eq, List.length_append]
  simp [openB, closeB]
  omega

lemma isItalic_applyItalic {s : List Char} (hne : s ≠ []) : isItalic (applyItalic s) = true := by
  have htrim : jsTrim (applyItalic s) = openI ++ s ++ closeI :=
    jsTrim_wrapped s (by rfl) (by decide) (by rfl) (by decide) (by decide)
  have hpreB : openB.isPrefixOf (openI ++ s ++ closeI) = false := by
    apply Bool.eq_false_iff.mpr
    intro hcontra
    obtain ⟨t, ht⟩ := List.isPrefixOf_iff_prefix.mp hcontra
    rw [List.append_assoc] at ht
    simp [openB, openI] at ht
  have hsufB : closeB.isSuffixOf (openI ++ s ++ closeI) = false := by
    apply Bool.eq_false_iff.mpr
    intro hcontra
    obtain ⟨t, ht⟩ := List.isSuffixOf_iff_suffix.mp hcontra
    have hlen : t.length = (openI ++ s).length := by
      have := congrArg List.length ht
      simp [closeB, closeI, openI] at this ⊢
      omega
    have heq : closeB = closeI := List.append_inj_right ht hlen
    exact absurd heq (by decide)
  have hpreI : openI.isPrefixOf (openI ++ s ++ closeI) = true := by
    rw [List.isPrefixOf_iff_prefix, List.append_assoc]
    exact ⟨s ++ closeI, rfl⟩
  have hsufI : closeI.isSuffixOf (openI ++ s ++ closeI) = true := by
    rw [List.isSuffixOf_iff_suffix]
    exact ⟨openI ++ s, by simp⟩
  simp only [isItalic, applyItalic] at htrim ⊢
  simp only [htrim]
  rw [hpreB, hsufB, hpreI, hsufI]
  have : s.length ≠ 0 := fun h0 => hne (List.length_eq_zero.mp h0)
  simp only [Bool.false_or, Bool.or_self, if_false, Bool.true_and, decide_eq_true_eq,
    List.length_append]
  simp [openI, closeI]
  omega

/-- C9 counterexample: `applyBold` does not re-wrap the trimmed content —
`applyBold " x "` is `"<b> x </b>"`, not `"<b>" ++ trim(" x ") ++ "</b>"`,
so the surrounding whitespace of the input appears inside the markers. -/
theorem c9_counterexample_apply_not_trimmed :
    (applyBold " x ".data == openB ++ jsTrim " x ".data ++ closeB) = false := by
  decide

/-- C9 (amended): only the block-style appliers (h1, h2, h3, bullet)
operate on the trimmed input — they are invariant under trimming.  The
inline appliers (bold, italic, underline, strikethrough) wrap the original
untrimmed input, so surrounding whitespace of the input does appear inside
the markers. -/
theorem c9_apply_wrapping_amended (s : List Char) :
    applyBold s = openB ++ s ++ closeB ∧
    applyItalic s = openI ++ s ++ closeI ∧
    applyUnderline s = openU ++ s ++ closeU ∧
    applyStrikethrough s = tildes ++ s ++ tildes ∧
    applyH1 s = applyH1 (jsTrim s) ∧
    applyH2 s = applyH2 (jsTrim s) ∧
    applyH3 s = applyH3 (jsTrim s) ∧
    applyBulletList s = applyBulletList (jsTrim s) := by
  refine ⟨rfl, rfl, rfl, rfl, ?_, ?_, ?_, ?_⟩
  · unfold applyH1
    rw [jsTrim_idem]
  · unfold applyH2
    rw [jsTrim_idem]
  · unfold applyH3
    rw [jsTrim_idem]
  · unfold applyBulletList
    rw [jsTrim_idem]

/-- C10: on input with a nonempty trim, each style's detector recognizes
its own applier's output, so the next toggle on the result takes the
remove branch. -/
theorem c10_detect_after_apply (s : List Char) (h : jsTrim s ≠ []) :
    (isBold (applyBold s) = true ∧
      toggleBold (applyBold s) = removeBold (applyBold s)) ∧
    (isItalic (applyItalic s) = true ∧
      toggleItalic (applyItalic s) = removeItalic (applyItalic s)) ∧
    (isUnderline (applyUnderline s) = true ∧
      toggleUnderline (applyUnderline s) = removeUnderline (applyUnderline s)) ∧
    (isStrikethrough (applyStrikethrough s) = true ∧
      toggleStrikethrough (applyStrikethrough s) = removeStrikethrough (applyStrikethrough s)) ∧
    (isH1 (applyH1 s) = true ∧ toggleH1 (applyH1 s) = removeHeader (applyH1 s)) ∧
    (isH2 (applyH2 s) = true ∧ toggleH2 (applyH2 s) = removeHeader (applyH2 s)) ∧
    (isH3 (applyH3 s) = true ∧ toggleH3 (applyH3 s) = removeHeader (applyH3 s)) ∧
    (isBulletList (applyBulletList s) = true ∧
      toggleBulletList (applyBulletList s) = removeBulletList (applyBulletList s)) := by
  have hne : s ≠ [] := by
    intro h0
    rw [h0] at h
    exact h rfl
  refine ⟨⟨isBold_applyBold hne, ?_⟩, ⟨isItalic_applyItalic hne, ?_⟩,
    ⟨isUnderline_applyUnderline hne, ?_⟩, ⟨isStrikethrough_applyStrikethrough hne, ?_⟩,
    ⟨isH1_applyH1 h, ?_⟩, ⟨isH2_applyH2 h, ?_⟩, ⟨isH3_applyH3 h, ?_⟩,
    ⟨isBulletList_applyBulletList h, ?_⟩⟩
  · unfold toggleBold
    rw [if_pos (isBold_applyBold hne)]
  · unfold toggleItalic
    rw [if_pos (isItalic_applyItalic hne)]
  · unfold toggleUnderline
    rw [if_pos (isUnderline_applyUnderline hne)]
  · unfold toggleStrikethrough
    rw [if_pos (isStrikethrough_applyStrikethrough hne)]
  · unfold toggleH1
    rw [if_pos (isH1_applyH1 h)]
  · unfold toggleH2
    rw [if_pos (isH2_applyH2 h)]
  · unfold toggleH3
    rw [if_pos (isH3_applyH3 h)]
  · unfold toggleBulletList
    rw [if_pos (isBulletList_applyBulletList h)]

/-- C10 witness: detect-after-apply at the concrete input `"hi"`. -/
theorem c10_detect_after_apply_witness :
    (isBold (applyBold "hi".data) = true ∧
      toggleBold (applyBold "hi".data) = removeBold (applyBold "hi".data)) ∧
    (isItalic (applyItalic "hi".data) = true ∧
      toggleItalic (applyItalic "hi".data) = removeItalic (applyItalic "hi".data)) ∧
    (isUnderline (applyUnderline "hi".data) = true ∧
      toggleUnderline (applyUnderline "hi".data) = removeUnderline (applyUnderline "hi".data)) ∧
    (isStrikethrough (applyStrikethrough "hi".data) = true ∧
      toggleStrikethrough (applyStrikethrough "hi".data) =
        removeStrikethrough (applyStrikethrough "hi".data)) ∧
    (isH1 (applyH1 "hi".data) = true ∧
      toggleH1 (applyH1 "hi".data) = removeHeader (applyH1 "hi".data)) ∧
    (isH2 (applyH2 "hi".data) = true ∧
      toggleH2 (applyH2 "hi".data) = removeHeader (applyH2 "hi".data)) ∧
    (isH3 (applyH3 "hi".data) = true ∧
      toggleH3 (applyH3 "hi".data) = removeHeader (applyH3 "hi".data)) ∧
    (isBulletList (applyBulletList "hi".data) = true ∧
      toggleBulletList (applyBulletList "hi".data) =
        removeBulletList (applyBulletList "hi".data)) :=
  c10_detect_after_apply "hi".data (by decide)

/-!
Resolver and orchestrator lemmas.
-/

lemma lineIndexAt_mono (doc : List (List Char)) {f t : Nat} (h : f ≤ t) :
    lineIndexAt doc f ≤ lineIndexAt doc t := by
  induction doc generalizing f t with
  | nil => simp [lineIndexAt]
  | cons l rest ih =>
    simp only [lineIndexAt]
    by_cases hf : f ≤ l.length <;> by_cases ht : t ≤ l.length
    · rw [if_pos hf, if_pos ht]
    · rw [if_pos hf, if_neg ht]
      omega
    · omega
    · rw [if_neg hf, if_neg ht]
      have := ih (f := f - (l.length + 1)) (t := t - (l.length + 1)) (by omega)
      omega

lemma getSelectedLines_length (doc : List (List Char)) (f t : Nat) :
    (getSelectedLines doc f t).length =
      lineIndexAt doc t + 1 - lineIndexAt doc f := by
  simp [getSelectedLines, selectedLineIdxs]

lemma getSelectedLines_length_pos (doc : List (List Char)) {f t : Nat} (h : f ≤ t) :
    0 < (getSelectedLines doc f t).length := by
  rw [getSelectedLines_length]
  have := lineIndexAt_mono doc h
  omega

/-- C1: for every document and selection range (`from ≤ to`), the resolver
sets each inline flag to true iff at least one touched line's full text
satisfies that style's detector, and the bullet flag to true iff every
touched line satisfies the bullet detector. -/
theorem c1_resolver_any_inline_all_bullet (doc : List (List Char)) (f t : Nat)
    (h : f ≤ t) :
    ((detectAdvancedFormatState doc f t).bold = true ↔
      ∃ l ∈ getSelectedLines doc f t, isBold l = true) ∧
    ((detectAdvancedFormatState doc f t).italic = true ↔
      ∃ l ∈ getSelectedLines doc f t, isItalic l = true) ∧
    ((detectAdvancedFormatState doc f t).underline = true ↔
      ∃ l ∈ getSelectedLines doc f t, isUnderline l = true) ∧
    ((detectAdvancedFormatState doc f t).strikethrough = true ↔
      ∃ l ∈ getSelectedLines doc f t, isStrikethrough l = true) ∧
    ((detectAdvancedFormatState doc f t).bullet = true ↔
      ∀ l ∈ getSelectedLines doc f t, isBulletList l = true) := by
  have hpos := getSelectedLines_length_pos doc h
  have hne : ¬ (getSelectedLines doc f t).length = 0 := by omega
  unfold detectAdvancedFormatState
  rw [if_neg hne]
  unfold hasInlineFormatInSelection
  simp only [List.any_eq_true, List.all_eq_true, Bool.and_eq_true, decide_eq_true_eq]
  refine ⟨trivial, trivial, trivial, trivial, ?_⟩
  constructor
  · intro ⟨_, hall⟩
    exact hall
  · intro hall
    exact ⟨hpos, hall⟩

/-- C1 witness: the any/all resolution on the concrete two-line document
`["<b>a</b>", "- b"]` with a selection spanning both lines. -/
theorem c1_resolver_any_inline_all_bullet_witness :
    ((detectAdvancedFormatState ["<b>a</b>".data, "- b".data] 0 10).bold = true ↔
      ∃ l ∈ getSelectedLines ["<b>a</b>".data, "- b".data] 0 10, isBold l = true) ∧
    ((detectAdvancedFormatState ["<b>a</b>".data, "- b".data] 0 10).italic = true ↔
      ∃ l ∈ getSelectedLines ["<b>a</b>".data, "- b".data] 0 10, isItalic l = true) ∧
    ((detectAdvancedFormatState ["<b>a</b>".data, "- b".data] 0 10).underline = true ↔
      ∃ l ∈ getSelectedLines ["<b>a</b>".data, "- b".data] 0 10, isUnderline l = true) ∧
    ((detectAdvancedFormatState ["<b>a</b>".data, "- b".data] 0 10).strikethrough = true ↔
      ∃ l ∈ getSelectedLines ["<b>a</b>".data, "- b".data] 0 10, isStrikethrough l = true) ∧
    ((detectAdvancedFormatState ["<b>a</b>".data, "- b".data] 0 10).bullet = true ↔
      ∀ l ∈ getSelectedLines ["<b>a</b>".data, "- b".data] 0 10, isBulletList l = true) :=
  c1_resolver_any_inline_all_bullet ["<b>a</b>".data, "- b".data] 0 10 (by decide)

/-- C2: a selection touching more than one line resolves with all three
heading flags false, whatever the lines contain. -/
theorem c2_multiline_heading_flags_false (doc : List (List Char)) (f t : Nat)
    (h : 1 < (getSelectedLines doc f t).length) :
    (detectAdvancedFormatState doc f t).h1 = false ∧
    (detectAdvancedFormatState doc f t).h2 = false ∧
    (detectAdvancedFormatState doc f t).h3 = false := by
  have hne : ¬ (getSelectedLines doc f t).length = 0 := by omega
  unfold detectAdvancedFormatState
  rw [if_neg hne]
  have hsingle : ((getSelectedLines doc f t).length == 1) = false := by
    simp
    omega
  simp only [hsingle, Bool.false_and]
  exact ⟨trivial, trivial, trivial⟩

/-- C2 witness: both lines of `["# a", "# b"]` are individually `isH1`,
yet a selection spanning the two lines resolves `h1 = h2 = h3 = false`. -/
theorem c2_multiline_heading_flags_false_witness :
    (detectAdvancedFormatState ["# a".data, "# b".data] 0 4).h1 = false ∧
    (detectAdvancedFormatState ["# a".data, "# b".data] 0 4).h2 = false ∧
    (detectAdvancedFormatState ["# a".data, "# b".data] 0 4).h3 = false :=
  c2_multiline_heading_flags_false ["# a".data, "# b".data] 0 4 (by decide)

/-- C3: the toggle orchestrator refuses an inline format with a caret-only
selection and a heading on a multi-line selection: it returns the refusal
signal (the `console.warn` message; the model is a total function, so
nothing is thrown) and the document is unchanged because no edit is
dispatched. -/
theorem c3_orchestrator_refusals (doc : List (List Char)) (f t : Nat)
    (ty : FormatType) :
    ((f = t → (ty = .bold ∨ ty = .italic ∨ ty = .underline ∨ ty = .strikethrough) →
      applyFormatting doc f t ty = .refused inlineWarnMsg ∧
      docCharsAfterFormatting doc f t ty = docChars doc)) ∧
    ((1 < (getSelectedLines doc f t).length →
      (ty = .h1 ∨ ty = .h2 ∨ ty = .h3) →
      applyFormatting doc f t ty = .refused headerWarnMsg ∧
      docCharsAfterFormatting doc f t ty = docChars doc)) := by
  constructor
  · intro hft hty
    have hres : applyFormatting doc f t ty = .refused inlineWarnMsg := by
      unfold applyFormatting
      rw [if_pos hft]
      rw [if_pos (by
        rcases hty with h | h | h | h <;> subst h <;>
          exact ⟨by simp, by simp, by simp, by simp⟩)]
    refine ⟨hres, ?_⟩
    unfold docCharsAfterFormatting
    rw [hres]
  · intro hlen hty
    have hft : f ≠ t := by
      intro hcontra
      subst hcontra
      rw [getSelectedLines_length] at hlen
      omega
    have hsingle : ((getSelectedLines doc f t).length == 1) = false := by
      simp
      omega
    have hres : applyFormatting doc f t ty = .refused headerWarnMsg := by
      unfold applyFormatting
      rw [if_neg hft]
      rw [if_pos ⟨hty, hsingle⟩]
    refine ⟨hres, ?_⟩
    unfold docCharsAfterFormatting
    rw [hres]

/-- C3 witness: a caret inside `"abc"` with a bold request, and a two-line
selection over `["# a", "# b"]` with an h1 request, are both refused with
the document unchanged. -/
theorem c3_orchestrator_refusals_witness :
    (applyFormatting ["abc".data] 1 1 .bold = .refused inlineWarnMsg ∧
      docCharsAfterFormatting ["abc".data] 1 1 .bold = docChars ["abc".data]) ∧
    (applyFormatting ["# a".data, "# b".data] 0 4 .h1 = .refused headerWarnMsg ∧
      docCharsAfterFormatting ["# a".data, "# b".data] 0 4 .h1 =
        docChars ["# a".data, "# b".data]) :=
  ⟨(c3_orchestrator_refusals ["abc".data] 1 1 .bold).1 rfl (Or.inl rfl),
   (c3_orchestrator_refusals ["# a".data, "# b".data] 0 4 .h1).2 (by decide) (Or.inl rfl)⟩

end LiveMate
